import Mathlib

/-!
Shallow embedding of `src/custom/sequence/sequence.cc` from the
tensorrt-inference-server repository: a stateful sequence-accumulator
custom backend.  The backend keeps one signed 32-bit accumulator per
batch slot; each execute call processes a batch of payloads, assembling
the chunked inputs "START", "READY" and "INPUT" for each payload,
updating that slot's accumulator according to the control values, and
optionally emitting the updated accumulator through an output callback.

Machine integers are modelled as `Int` with explicit wrap-around at
2^32 (`i32`); bytes are `Nat` values; fallible or undefined behaviour
(the out-of-bounds `input[0]` read on an empty INPUT buffer) is
modelled with `Option`.
-/

namespace Sequence

/-- Normalization of an integer into the signed 32-bit range
`[-2^31, 2^31)`; models the wrap-around of C `int32_t` arithmetic. -/
def i32 (x : Int) : Int :=
  (x + 2147483648) % 4294967296 - 2147483648

/-- Wrapping 32-bit addition, modelling `accumulator_[pidx] += input[e]`. -/
def wadd (a x : Int) : Int := i32 (a + x)

/-- Local error codes registered by the context, in declaration order.
Modelled from the spec: `RegisterError` lives in the custom-backend SDK
(`src/custom/sdk/custom_instance.h`), which is not part of this
repository snapshot; the spec only requires that the codes be distinct
and distinct from `Success = 0`, so consecutive positive values are
used here. -/
def errSuccess : Int := 0

/-- Error code of "execution on GPU not supported". -/
def kGpuNotSupported : Int := 1

/-- Error code of "model configuration must configure sequence batcher". -/
def kSequenceBatcher : Int := 2

/-- Error code of "'START' and 'READY' must be configured as the control inputs". -/
def kModelControl : Int := 3

/-- Error code of "model must have input 'INPUT' with vector shape, any length". -/
def kInput : Int := 4

/-- Error code of "model must have output 'OUTPUT' with shape matching 'INPUT'". -/
def kOutput : Int := 5

/-- Error code of "model input must be named 'INPUT'". -/
def kInputName : Int := 6

/-- Error code of "model output must be named 'OUTPUT'". -/
def kOutputName : Int := 7

/-- Error code of "model input and output must have TYPE_INT32 data-type". -/
def kInputOutputDataType : Int := 8

/-- Error code of "unable to get input tensor values" (SourceReadError). -/
def kInputContents : Int := 9

/-- Error code of "unexpected size for input tensor" (SizeExceeded / SizeMismatch). -/
def kInputSize : Int := 10

/-- Error code of "unable to get buffer for output tensor values"
(OutputBufferUnavailable). -/
def kOutputBuffer : Int := 11

/-- Error code of "unable to execute batch larger than max-batch-size"
(BatchTooLarge). -/
def kBatchTooBig : Int := 12

/-- Error code of "unable to execute more than one timestep at a time"
(MultiTimestepUnsupported). -/
def kTimesteps : Int := 13

/-- One response of the pull-based input source (`CustomGetNextInputFn_t`):
the call can fail, deliver a byte chunk, or return a null content pointer
signalling end of input. -/
inductive Pull where
  | fail : Pull
  | chunk : List Nat → Pull
  | eof : Pull
deriving DecidableEq

/-- Chunk assembler, modelling `Context::GetInputTensor`
(sequence.cc lines 186-230).  `pulls` is the sequence of responses the
source will give to successive `input_fn` calls; `total` and `buf` are
the running byte total and the `input` out-vector.  The result is the
pair (error code, final contents of the out-vector); `none` models a
source that keeps delivering chunks past the modelled response list
(the loop would keep calling `input_fn`). -/
def getInputTensor (expected : Nat) : List Pull → Nat → List Nat →
    Option (Int × List Nat)
  | [], _, _ => none
  | Pull.fail :: _, _, buf => some (kInputContents, buf)
  | Pull.eof :: _, total, buf =>
      if total ≠ expected then some (kInputSize, buf) else some (errSuccess, buf)
  | Pull.chunk d :: rest, total, buf =>
      let total' := total + d.length
      if expected < total' then some (kInputSize, buf)
      else getInputTensor expected rest total' (buf ++ d)

/-- Little-endian decoding of four bytes as a signed 32-bit integer,
modelling the `reinterpret_cast<int32_t*>` reads on a little-endian
host. -/
def leI32 (b0 b1 b2 b3 : Nat) : Int :=
  i32 ((b0 : Int) + 256 * b1 + 65536 * b2 + 16777216 * b3)

/-- Decoding of an assembled byte buffer as an array of int32 values. -/
def bytesToI32 : List Nat → List Int
  | b0 :: b1 :: b2 :: b3 :: rest => leI32 b0 b1 b2 b3 :: bytesToI32 rest
  | _ => []

/-- Sequence step processor, modelling sequence.cc lines 305-319 for one
slot: given the decoded `start` and `ready` control values, the decoded
INPUT vector and the slot's accumulator, it returns the new accumulator
value together with the emitted output value (`none` when nothing is
emitted).  The result is `none` when the code's `input[0]` read in the
set branch is out of bounds (empty INPUT vector). -/
def seqStep (start ready : Int) (input : List Int) (acc : Int) :
    Option (Int × Option Int) :=
  if ready ≠ 0 then
    if start = 0 then
      let a := input.foldl wadd acc
      some (a, some a)
    else
      match input with
      | [] => none
      | x :: xs =>
          let a := xs.foldl wadd x
          some (a, some a)
  else some (acc, none)

/-- One response of the output callback (`CustomGetOutputFn_t`): the
call can fail, succeed with a null buffer (caller declines the output),
or succeed with a real buffer. -/
inductive OutResp where
  | fail : OutResp
  | nullbuf : OutResp
  | buf : OutResp
deriving DecidableEq

/-- One `CustomPayload` of an execute call, together with the behaviour
of the caller-supplied callbacks for this payload: `pulls name` is the
response sequence the pull source gives for input `name`, and
`output_fn` maps the requested output name and shape to the callback's
response. -/
structure Payload where
  batch_size : Nat
  error_code : Int
  inputs : List (String × List Int)
  pulls : String → List Pull
  output_cnt : Nat
  required_output_names : List String
  output_fn : String → List Int → OutResp

/-- Observable per-payload outcome of one execute call: the final value
of the payload's `error_code` field, the output-callback invocation
made for it (output name and shape), if any, and the value written into
the output buffer, if any. -/
structure PayloadResult where
  error_code : Int
  outCall : Option (String × List Int)
  written : Option Int
deriving DecidableEq

/-- Element count of the "INPUT" tensor, modelling the lookup loop of
sequence.cc lines 266-271: the first input named "INPUT" provides the
leading dimension of its shape; if no input is named "INPUT" the count
keeps its initialization value 0. -/
def findElemCnt : List (String × List Int) → Int
  | [] => 0
  | (n, dims) :: rest =>
      if n = "INPUT" then dims.headD 0 else findElemCnt rest

/-- Processing of one payload at one slot, modelling the body of the
loop in sequence.cc lines 255-351.  `acc` is `accumulator_[pidx]`
before the iteration; the result is the new accumulator value and the
payload's observable outcome.  `none` models undefined behaviour (the
out-of-bounds `input[0]` read, or a pull source under-specified by the
payload's response lists). -/
def processPayload (maxBatchSize : Nat) (acc : Int) (p : Payload) :
    Option (Int × PayloadResult) :=
  if p.batch_size ≠ 1 then some (acc, ⟨kTimesteps, none, none⟩)
  else
    let elemCnt := findElemCnt p.inputs
    match getInputTensor 4 (p.pulls "START") 0 [] with
    | none => none
    | some (es, sb) =>
      if es ≠ errSuccess then some (acc, ⟨es, none, none⟩)
      else
        match getInputTensor 4 (p.pulls "READY") 0 [] with
        | none => none
        | some (er, rb) =>
          if er ≠ errSuccess then some (acc, ⟨er, none, none⟩)
          else
            match getInputTensor (elemCnt.toNat * 4) (p.pulls "INPUT") 0 [] with
            | none => none
            | some (ei, ib) =>
              if ei ≠ errSuccess then some (acc, ⟨ei, none, none⟩)
              else
                let start := (bytesToI32 sb).headD 0
                let ready := (bytesToI32 rb).headD 0
                let input := bytesToI32 ib
                match seqStep start ready input acc with
                | none => none
                | some (acc', emit) =>
                  match emit with
                  | none => some (acc', ⟨p.error_code, none, none⟩)
                  | some outv =>
                    if p.error_code = 0 ∧ 0 < p.output_cnt then
                      let oname := p.required_output_names.headD ""
                      let shape :=
                        (if maxBatchSize ≠ 0 then [(1 : Int)] else []) ++ [elemCnt]
                      match p.output_fn oname shape with
                      | OutResp.fail =>
                          some (acc', ⟨kOutputBuffer, some (oname, shape), none⟩)
                      | OutResp.nullbuf =>
                          some (acc', ⟨p.error_code, some (oname, shape), none⟩)
                      | OutResp.buf =>
                          some (acc', ⟨p.error_code, some (oname, shape), some outv⟩)
                    else some (acc', ⟨p.error_code, none, none⟩)

/-- The per-slot loop of `Context::Execute` (sequence.cc lines
255-351): payload `i` is processed against accumulator slot `i`;
slots beyond the payload count are untouched. -/
def runPayloads (maxBatchSize : Nat) :
    List Int → List Payload → Option (List Int × List PayloadResult)
  | accs, [] => some (accs, [])
  | [], _ :: _ => none
  | a :: as, p :: ps =>
      match processPayload maxBatchSize a p with
      | none => none
      | some (a', r) =>
        match runPayloads maxBatchSize as ps with
        | none => none
        | some (as', rs) => some (a' :: as', r :: rs)

/-- Observable outcome of one `Context::Execute` call: the accumulator
store after the call, the per-payload outcomes (empty when no payload
was processed), the overall return code, and whether the configured
execution delay was applied. -/
structure ExecResult where
  accs : List Int
  results : List PayloadResult
  ret : Int
  delayed : Bool
deriving DecidableEq

/-- Modelling of `Context::Execute` (sequence.cc lines 232-354).
`accs` is the accumulator store (`accumulator_`, of size
`max 1 max_batch_size`); `delayMs` is `execute_delay_ms_`.  If the
payload count exceeds the store size the call fails with
`kBatchTooBig` before the delay and before processing any slot;
otherwise the delay is applied, every payload is processed in order
against its slot, and the call returns overall success. -/
def execute (maxBatchSize : Nat) (delayMs : Nat) (accs : List Int)
    (ps : List Payload) : Option ExecResult :=
  if accs.length < ps.length then some ⟨accs, [], kBatchTooBig, false⟩
  else
    match runPayloads maxBatchSize accs ps with
    | none => none
    | some (accs', rs) => some ⟨accs', rs, errSuccess, 0 < delayMs⟩

/-- Driving one slot through a sequence of (start, ready, INPUT) steps
with `seqStep`, tracking the most recent emitted value; used to state
the cross-step accumulation property. -/
def runSteps : Int → Option Int → List (Int × Int × List Int) →
    Option (Int × Option Int)
  | acc, le, [] => some (acc, le)
  | acc, le, (s, r, inp) :: rest =>
      match seqStep s r inp acc with
      | none => none
      | some (a', e) =>
        match e with
        | none => runSteps a' le rest
        | some v => runSteps a' (some v) rest

/-- Witness payload with a well-formed 3-element INPUT, matching the
spec's concrete scenario: START=1, READY=1, INPUT=[2,3,4] delivered in
two chunks. -/
def pGoodW : Payload :=
  { batch_size := 1
  , error_code := 0
  , inputs := [("INPUT", [3])]
  , pulls := fun n =>
      if n = "START" then [Pull.chunk [1, 0, 0, 0], Pull.eof]
      else if n = "READY" then [Pull.chunk [1, 0, 0, 0], Pull.eof]
      else [Pull.chunk [2, 0, 0, 0, 3, 0, 0, 0], Pull.chunk [4, 0, 0, 0], Pull.eof]
  , output_cnt := 1
  , required_output_names := ["OUTPUT"]
  , output_fn := fun _ _ => OutResp.buf }

/-- Witness payload with a declared batch size of 2, which the backend
rejects with `kTimesteps`. -/
def pBadW : Payload :=
  { batch_size := 2
  , error_code := 0
  , inputs := [("INPUT", [3])]
  , pulls := fun _ => [Pull.eof]
  , output_cnt := 1
  , required_output_names := ["OUTPUT"]
  , output_fn := fun _ _ => OutResp.buf }

/-- Witness payload matching the spec's short-delivery scenario: INPUT
declares 5 elements (20 bytes) but only 4 elements (16 bytes) arrive
before the end-of-input signal. -/
def pShortW : Payload :=
  { batch_size := 1
  , error_code := 0
  , inputs := [("INPUT", [5])]
  , pulls := fun n =>
      if n = "START" then [Pull.chunk [1, 0, 0, 0], Pull.eof]
      else if n = "READY" then [Pull.chunk [1, 0, 0, 0], Pull.eof]
      else [Pull.chunk [1, 0, 0, 0, 1, 0, 0, 0, 1, 0, 0, 0, 1, 0, 0, 0], Pull.eof]
  , output_cnt := 1
  , required_output_names := ["OUTPUT"]
  , output_fn := fun _ _ => OutResp.buf }

/-- Witness payload with no input named "INPUT": the element count
defaults to 0, the INPUT assembly succeeds with an empty buffer, and a
START=1, READY=1 step then reads `input[0]` out of bounds. -/
def pNoInputW : Payload :=
  { batch_size := 1
  , error_code := 0
  , inputs := [("FOO", [1])]
  , pulls := fun n =>
      if n = "START" then [Pull.chunk [1, 0, 0, 0], Pull.eof]
      else if n = "READY" then [Pull.chunk [1, 0, 0, 0], Pull.eof]
      else [Pull.eof]
  , output_cnt := 1
  , required_output_names := ["OUTPUT"]
  , output_fn := fun _ _ => OutResp.buf }

/-- Expected result of executing the two-payload witness batch
`[pBadW, pGoodW]` against accumulator store `[0, 5]`: slot 0 records
`kTimesteps` and keeps its accumulator, slot 1 is seeded to 9 and
emits 9. -/
def resW : ExecResult :=
  { accs := [0, 9]
  , results := [⟨kTimesteps, none, none⟩, ⟨0, some ("OUTPUT", [1, 3]), some 9⟩]
  , ret := errSuccess
  , delayed := false }

/-! Helper lemmas shared by the claim theorems. -/

theorem i32_idem (a : Int) : i32 (i32 a) = i32 a := by
  simp only [i32]
  omega

theorem i32_add_left (a b : Int) : i32 (i32 a + b) = i32 (a + b) := by
  simp only [i32]
  omega

theorem wadd_norm (a x : Int) : i32 (wadd a x) = wadd a x := by
  simp only [wadd]
  exact i32_idem _

/-- Folding wrapping additions over a list, starting from a normalized
value, is the wrap of the plain integer sum. -/
theorem foldl_wadd (l : List Int) (a : Int) (h : i32 a = a) :
    l.foldl wadd a = i32 (a + l.sum) := by
  induction l generalizing a with
  | nil => simpa using h.symm
  | cons x xs ih =>
      simp only [List.foldl_cons, List.sum_cons]
      rw [ih (wadd a x) (wadd_norm a x)]
      simp only [wadd]
      rw [i32_add_left]
      ring_nf

/-- Skipping a run of in-budget chunks: as long as the running total
stays within the expected size, the assembler appends each chunk and
moves on. -/
theorem git_skip (expected : Nat) (chunks : List (List Nat)) :
    ∀ (post : List Pull) (total : Nat) (buf : List Nat),
    total + (chunks.map List.length).sum ≤ expected →
    getInputTensor expected (chunks.map Pull.chunk ++ post) total buf
      = getInputTensor expected post (total + (chunks.map List.length).sum)
          (buf ++ chunks.flatten) := by
  induction chunks with
  | nil => intro post total buf _; simp
  | cons d ds ih =>
      intro post total buf h
      have hle : ¬ expected < total + d.length := by
        simp only [List.map_cons, List.sum_cons] at h
        omega
      simp only [List.map_cons, List.cons_append, getInputTensor, hle, if_false,
        List.append_eq]
      rw [ih post (total + d.length) (buf ++ d) (by
        simp only [List.map_cons, List.sum_cons] at h
        omega)]
      simp only [List.map_cons, List.sum_cons, List.flatten_cons, List.append_assoc]
      ring_nf

/-- The assembler rejects a chunk that would push the running total
past the expected size, without appending its bytes. -/
theorem git_overflow_head (expected : Nat) (c : List Nat) (post : List Pull)
    (total : Nat) (buf : List Nat) (h : expected < total + c.length) :
    getInputTensor expected (Pull.chunk c :: post) total buf
      = some (kInputSize, buf) := by
  simp [getInputTensor, h]

/-- Every emission of the step processor carries the post-update
accumulator value. -/
theorem seqStep_emit_eq (start ready acc : Int) (input : List Int)
    (a : Int) (e : Int) (h : seqStep start ready input acc = some (a, some e)) :
    e = a := by
  unfold seqStep at h
  by_cases hr : ready ≠ 0
  · by_cases hs : start = 0
    · simp [hr, hs] at h
      exact h.2.symm.trans h.1
    · cases input with
      | nil => simp [hr, hs] at h
      | cons x xs =>
          simp [hr, hs] at h
          exact h.2.symm.trans h.1
  · simp [hr] at h

/-- Running a block of ready, non-start steps accumulates the sums of
their INPUT vectors onto the slot, and (when the block is nonempty)
the last emitted value is the final accumulator. -/
theorem runSteps_ready_tail (steps : List (Int × Int × List Int)) :
    ∀ (acc : Int) (le : Option Int), i32 acc = acc →
    (∀ t ∈ steps, t.1 = 0 ∧ t.2.1 ≠ 0) →
    runSteps acc le steps
      = some (i32 (acc + (steps.map (fun t => t.2.2.sum)).sum),
          if steps = [] then le
          else some (i32 (acc + (steps.map (fun t => t.2.2.sum)).sum))) := by
  induction steps with
  | nil =>
      intro acc le hacc _
      simp [runSteps, hacc]
  | cons t rest ih =>
      intro acc le hacc hall
      obtain ⟨s, r, inp⟩ := t
      have hs : s = 0 := (hall _ (List.mem_cons_self _ _)).1
      have hr : r ≠ 0 := (hall _ (List.mem_cons_self _ _)).2
      subst hs
      have hstep : seqStep 0 r inp acc
          = some (i32 (acc + inp.sum), some (i32 (acc + inp.sum))) := by
        simp [seqStep, hr, foldl_wadd inp acc hacc]
      simp only [runSteps, hstep]
      rw [ih _ _ (i32_idem _) (fun q hq => hall q (List.mem_cons_of_mem _ hq))]
      cases rest with
      | nil => simp [i32_idem]
      | cons u us =>
          simp only [List.map_cons, List.sum_cons, List.cons_ne_nil, if_false,
            i32_add_left]
          rw [add_assoc]

/-! Claim theorems. -/

/-- C1 (amended): for one slot and one step, with the control values
`start` and `ready` read from element 0 of their buffers: if `ready = 0`
the accumulator is unchanged and nothing is emitted, regardless of
`start` and of the INPUT contents; if `ready ≠ 0` and `start = 0` the
accumulator is incremented (in 32-bit wrap-around arithmetic) by the
sum of all INPUT elements; if `ready ≠ 0` and `start ≠ 0` and the INPUT
vector is nonempty, the accumulator is set to the 32-bit sum of all
INPUT elements; and every emitted value equals the post-update
accumulator.  The nonemptiness condition is forced by the out-of-bounds
`input[0]` read (see the counterexample). -/
theorem seqStep_spec (start ready acc : Int) (input : List Int)
    (hacc : i32 acc = acc) (hin : ∀ x ∈ input, i32 x = x) :
    (ready = 0 → seqStep start ready input acc = some (acc, none)) ∧
    (ready ≠ 0 → start = 0 →
      seqStep start ready input acc
        = some (i32 (acc + input.sum), some (i32 (acc + input.sum)))) ∧
    (ready ≠ 0 → start ≠ 0 → input ≠ [] →
      seqStep start ready input acc
        = some (i32 input.sum, some (i32 input.sum))) ∧
    (∀ a e, seqStep start ready input acc = some (a, some e) → e = a) := by
  refine ⟨?_, ?_, ?_, ?_⟩
  · intro hr
    simp [seqStep, hr]
  · intro hr hs
    simp [seqStep, hr, hs, foldl_wadd input acc hacc]
  · intro hr hs hne
    cases input with
    | nil => exact absurd rfl hne
    | cons x xs =>
        have hx : i32 x = x := hin x (List.mem_cons_self _ _)
        simp [seqStep, hr, hs, foldl_wadd xs x hx]
  · intro a e h
    exact seqStep_emit_eq _ _ _ _ _ _ h

/-- C1 counterexample: at start=1, ready=1 with an empty INPUT vector
the claim predicts the accumulator is set to the empty sum 0 and 0 is
emitted, i.e. `some (0, some 0)`; the code instead reads `input[0]` out
of bounds, so the step is undefined (`none`). -/
theorem seqStep_empty_start_cex :
    seqStep 1 1 [] 0 = none ∧ seqStep 1 1 [] 0 ≠ some (0, some 0) := by
  constructor
  · rfl
  · decide

/-- Witness instantiating C1's increment branch: adding [2,3,4] to an
accumulator holding 3 gives 12. -/
theorem seqStep_spec_witness :
    seqStep 0 1 [2, 3, 4] 3 = some (12, some 12) := by
  have h := (seqStep_spec 0 1 3 [2, 3, 4] (by decide) (by decide)).2.1
    (by decide) rfl
  rw [h]
  decide

/-- C2 (amended): applying to one slot a start step (start ≠ 0,
ready ≠ 0, nonempty INPUT vector) followed by k consecutive ready
non-start steps, the value emitted after the k-th such step is the
32-bit sum of all INPUT elements of all k+1 steps since and including
the start step (and it is also the final accumulator value).  The
nonemptiness of the start step's INPUT is forced by the out-of-bounds
`input[0]` read (see the counterexample). -/
theorem runSteps_accumulation (s0 r0 acc0 : Int) (in0 : List Int)
    (rest : List (Int × Int × List Int)) (le : Option Int)
    (hs0 : s0 ≠ 0) (hr0 : r0 ≠ 0) (hne : in0 ≠ [])
    (hin0 : ∀ x ∈ in0, i32 x = x)
    (hrest : ∀ t ∈ rest, t.1 = 0 ∧ t.2.1 ≠ 0) :
    runSteps acc0 le ((s0, r0, in0) :: rest)
      = some (i32 (in0.sum + (rest.map (fun t => t.2.2.sum)).sum),
          some (i32 (in0.sum + (rest.map (fun t => t.2.2.sum)).sum))) := by
  cases in0 with
  | nil => exact absurd rfl hne
  | cons x xs =>
      have hx : i32 x = x := hin0 x (List.mem_cons_self _ _)
      have hstep : seqStep s0 r0 (x :: xs) acc0
          = some (i32 (x + xs.sum), some (i32 (x + xs.sum))) := by
        simp [seqStep, hr0, hs0, foldl_wadd xs x hx]
      simp only [runSteps, hstep]
      rw [runSteps_ready_tail rest _ _ (i32_idem _) hrest]
      cases rest with
      | nil => simp [i32_idem]
      | cons u us =>
          simp [i32_add_left, List.sum_cons]

/-- C2 counterexample: a start step with an empty INPUT vector followed
by one ready non-start step with INPUT [5]; the claim predicts the
emitted value 5 (= 0 + 5), but the run is undefined because the start
step reads `input[0]` out of bounds. -/
theorem runSteps_empty_start_cex :
    runSteps 0 none [(1, 1, ([] : List Int)), (0, 1, [5])] = none ∧
    runSteps 0 none [(1, 1, ([] : List Int)), (0, 1, [5])] ≠ some (5, some 5) := by
  constructor
  · rfl
  · decide

/-- Witness instantiating C2: a start step with INPUT [2,3,4] followed
by one ready step with INPUT [1,1,1] emits 12. -/
theorem runSteps_accumulation_witness :
    runSteps 0 none [((1 : Int), (1 : Int), [2, 3, 4]), ((0 : Int), (1 : Int), [1, 1, 1])]
      = some (12, some 12) := by
  have h := runSteps_accumulation 1 1 0 [2, 3, 4] [(0, 1, [1, 1, 1])] none
    (by decide) (by decide) (by decide) (by decide) (by decide)
  rw [h]
  decide

/-- C3: the assembler fails with `kInputContents` (SourceReadError) when
a pull call fails, with `kInputSize` immediately when a chunk pushes the
running total past the expected size (SizeExceeded), and with
`kInputSize` when end-of-input arrives short of the expected size
(SizeMismatch); otherwise it succeeds and the assembled buffer is the
concatenation of all delivered chunks, of length exactly the expected
byte size. -/
theorem getInputTensor_contract :
    (∀ (expected : Nat) (chunks : List (List Nat)) (rest : List Pull),
      (chunks.map List.length).sum ≤ expected →
      getInputTensor expected (chunks.map Pull.chunk ++ Pull.fail :: rest) 0 []
        = some (kInputContents, chunks.flatten)) ∧
    (∀ (expected : Nat) (pre : List (List Nat)) (c : List Nat) (post : List Pull),
      (pre.map List.length).sum ≤ expected →
      expected < (pre.map List.length).sum + c.length →
      getInputTensor expected (pre.map Pull.chunk ++ Pull.chunk c :: post) 0 []
        = some (kInputSize, pre.flatten)) ∧
    (∀ (expected : Nat) (chunks : List (List Nat)) (rest : List Pull),
      (chunks.map List.length).sum < expected →
      getInputTensor expected (chunks.map Pull.chunk ++ Pull.eof :: rest) 0 []
        = some (kInputSize, chunks.flatten)) ∧
    (∀ (expected : Nat) (chunks : List (List Nat)) (rest : List Pull),
      (chunks.map List.length).sum = expected →
      getInputTensor expected (chunks.map Pull.chunk ++ Pull.eof :: rest) 0 []
        = some (errSuccess, chunks.flatten) ∧
      chunks.flatten.length = expected) := by
  refine ⟨?_, ?_, ?_, ?_⟩
  · intro expected chunks rest h
    rw [git_skip expected chunks _ 0 [] (by simpa using h)]
    simp [getInputTensor]
  · intro expected pre c post h1 h2
    rw [git_skip expected pre _ 0 [] (by simpa using h1)]
    rw [git_overflow_head expected c post _ _ (by omega)]
    simp
  · intro expected chunks rest h
    rw [git_skip expected chunks _ 0 [] (by omega)]
    have hne : (chunks.map List.length).sum ≠ expected := by omega
    simp [getInputTensor, hne]
  · intro expected chunks rest h
    rw [git_skip expected chunks _ 0 [] (by omega)]
    refine ⟨by simp [getInputTensor, h], ?_⟩
    rw [List.length_flatten]
    exact h

/-- Witness instantiating C3's success case: two chunks of two bytes
each assemble into a 4-byte buffer. -/
theorem getInputTensor_contract_witness :
    getInputTensor 4 (List.map Pull.chunk [[1, 2], [3, 4]] ++ Pull.eof :: []) 0 []
      = some (errSuccess, List.flatten [[1, 2], [3, 4]]) ∧
    (List.flatten [[1, 2], [3, 4]]).length = 4 :=
  getInputTensor_contract.2.2.2 4 [[1, 2], [3, 4]] [] (by decide)

/-- C7: a chunk whose bytes would push the running total past the
expected size makes assembly fail on that very pull call — regardless
of everything the source would deliver afterwards — and the overflowing
chunk's bytes are never appended: the out-buffer holds exactly the
earlier chunks. -/
theorem getInputTensor_overflow_immediate (expected : Nat)
    (pre : List (List Nat)) (c : List Nat) (post : List Pull)
    (hpre : (pre.map List.length).sum ≤ expected)
    (hover : expected < (pre.map List.length).sum + c.length) :
    getInputTensor expected (pre.map Pull.chunk ++ Pull.chunk c :: post) 0 []
      = some (kInputSize, pre.flatten) := by
  rw [git_skip expected pre _ 0 [] (by simpa using hpre)]
  rw [git_overflow_head expected c post _ _ (by omega)]
  simp

/-- Witness instantiating C7: after a 2-byte chunk, a 3-byte chunk
overflows the expected 4 bytes; the buffer keeps only the first chunk. -/
theorem getInputTensor_overflow_immediate_witness :
    getInputTensor 4 (List.map Pull.chunk [[1, 2]] ++ Pull.chunk [3, 4, 5] :: []) 0 []
      = some (kInputSize, List.flatten [[1, 2]]) :=
  getInputTensor_overflow_immediate 4 [[1, 2]] [3, 4, 5] [] (by decide) (by decide)

/-- C9: chunk reassembly is invariant under the partition of a logical
input of E elements into chunks: any two partitions of the same E*4
bytes assemble successfully into identical buffers, and the step that
consumes the decoded buffer therefore gives identical accumulator
results. -/
theorem getInputTensor_partition_invariance (E : Nat)
    (c1 c2 : List (List Nat)) (r1 r2 : List Pull) (s r acc : Int)
    (hflat : c1.flatten = c2.flatten) (hlen : c1.flatten.length = E * 4) :
    getInputTensor (E * 4) (c1.map Pull.chunk ++ Pull.eof :: r1) 0 []
      = some (errSuccess, c1.flatten) ∧
    getInputTensor (E * 4) (c2.map Pull.chunk ++ Pull.eof :: r2) 0 []
      = some (errSuccess, c2.flatten) ∧
    getInputTensor (E * 4) (c1.map Pull.chunk ++ Pull.eof :: r1) 0 []
      = getInputTensor (E * 4) (c2.map Pull.chunk ++ Pull.eof :: r2) 0 [] ∧
    seqStep s r (bytesToI32 c1.flatten) acc
      = seqStep s r (bytesToI32 c2.flatten) acc := by
  have h1 : (c1.map List.length).sum = E * 4 := by
    rw [← List.length_flatten]
    exact hlen
  have h2 : (c2.map List.length).sum = E * 4 := by
    rw [← List.length_flatten, ← hflat]
    exact hlen
  have g1 : getInputTensor (E * 4) (c1.map Pull.chunk ++ Pull.eof :: r1) 0 []
      = some (errSuccess, c1.flatten) := by
    rw [git_skip _ c1 _ 0 [] (by omega)]
    simp [getInputTensor, h1]
  have g2 : getInputTensor (E * 4) (c2.map Pull.chunk ++ Pull.eof :: r2) 0 []
      = some (errSuccess, c2.flatten) := by
    rw [git_skip _ c2 _ 0 [] (by omega)]
    simp [getInputTensor, h2]
  refine ⟨g1, g2, ?_, ?_⟩
  · rw [g1, g2, hflat]
  · rw [hflat]

/-- Witness instantiating C9: the 4 bytes of the single-element input 7
split as one 4-byte chunk or as a 1-byte chunk followed by a 3-byte
chunk assemble identically and step identically. -/
theorem getInputTensor_partition_invariance_witness :
    getInputTensor (1 * 4) (List.map Pull.chunk [[7, 0, 0, 0]] ++ Pull.eof :: []) 0 []
      = some (errSuccess, List.flatten [[7, 0, 0, 0]]) ∧
    getInputTensor (1 * 4) (List.map Pull.chunk [[7], [0, 0, 0]] ++ Pull.eof :: []) 0 []
      = some (errSuccess, List.flatten [[7], [0, 0, 0]]) ∧
    getInputTensor (1 * 4) (List.map Pull.chunk [[7, 0, 0, 0]] ++ Pull.eof :: []) 0 []
      = getInputTensor (1 * 4) (List.map Pull.chunk [[7], [0, 0, 0]] ++ Pull.eof :: []) 0 [] ∧
    seqStep 1 1 (bytesToI32 (List.flatten [[7, 0, 0, 0]])) 0
      = seqStep 1 1 (bytesToI32 (List.flatten [[7], [0, 0, 0]])) 0 :=
  getInputTensor_partition_invariance 1 [[7, 0, 0, 0]] [[7], [0, 0, 0]] [] [] 1 1 0
    (by decide) (by decide)

/-- C6: a request with more payloads than accumulator slots returns the
fatal `kBatchTooBig` error before processing any slot: the accumulator
store is unchanged, no payload result is produced (so no input is
pulled and no output is written), and the execution delay is not
applied. -/
theorem execute_batch_too_big (maxB delayMs : Nat) (accs : List Int)
    (ps : List Payload) (h : accs.length < ps.length) :
    execute maxB delayMs accs ps
      = some { accs := accs, results := [], ret := kBatchTooBig, delayed := false } := by
  simp [execute, h]

/-- Witness instantiating C6: two payloads against a single-slot store,
with a 50 ms delay configured that is not applied. -/
theorem execute_batch_too_big_witness :
    execute 1 50 [0] [pGoodW, pGoodW]
      = some { accs := [0], results := [], ret := kBatchTooBig, delayed := false } :=
  execute_batch_too_big 1 50 [0] [pGoodW, pGoodW] (by decide)

/-- Indexing lemma for the per-slot loop: the outcome at slot `j` is
exactly the outcome of processing payload `j` against accumulator `j`,
and slots beyond the payload count are untouched. -/
theorem runPayloads_get (maxB : Nat) (ps : List Payload) :
    ∀ (accs accs' : List Int) (rs : List PayloadResult),
    runPayloads maxB accs ps = some (accs', rs) →
    (∀ (j : Nat) (a : Int) (p : Payload), accs[j]? = some a → ps[j]? = some p →
      ∃ a' r, processPayload maxB a p = some (a', r) ∧
        accs'[j]? = some a' ∧ rs[j]? = some r) ∧
    (∀ j : Nat, ps.length ≤ j → accs'[j]? = accs[j]?) := by
  induction ps with
  | nil =>
      intro accs accs' rs h
      simp only [runPayloads, Option.some.injEq, Prod.mk.injEq] at h
      obtain ⟨h1, h2⟩ := h
      subst h1
      subst h2
      constructor
      · intro j a p _ hp
        simp at hp
      · intro j _
        rfl
  | cons p ps ih =>
      intro accs accs' rs h
      cases accs with
      | nil => simp [runPayloads] at h
      | cons a as =>
          simp only [runPayloads] at h
          cases hpp : processPayload maxB a p with
          | none =>
              rw [hpp] at h
              simp at h
          | some v =>
              obtain ⟨a1, r1⟩ := v
              rw [hpp] at h
              cases hrp : runPayloads maxB as ps with
              | none =>
                  rw [hrp] at h
                  simp at h
              | some w =>
                  obtain ⟨as1, rs1⟩ := w
                  rw [hrp] at h
                  simp only [Option.some.injEq, Prod.mk.injEq] at h
                  obtain ⟨h1, h2⟩ := h
                  subst h1
                  subst h2
                  have IH := ih as as1 rs1 hrp
                  constructor
                  · intro j b q hb hq
                    cases j with
                    | zero =>
                        simp only [List.getElem?_cons_zero, Option.some.injEq] at hb hq
                        subst hb
                        subst hq
                        exact ⟨a1, r1, hpp, by simp, by simp⟩
                    | succ j =>
                        simp only [List.getElem?_cons_succ] at hb hq
                        obtain ⟨a2, r2, hp2, hacc2, hrs2⟩ := IH.1 j b q hb hq
                        exact ⟨a2, r2, hp2, by simpa using hacc2, by simpa using hrs2⟩
                  · intro j hj
                    cases j with
                    | zero => simp at hj
                    | succ j =>
                        simp only [List.getElem?_cons_succ]
                        exact IH.2 j (by simpa using hj)

/-- C4: per-slot failure isolation.  Whenever an execute call is
defined, its overall return value is success, and the outcome at slot
`j` — new accumulator value, error code, output emission — is exactly
the outcome of processing payload `j` alone against accumulator `j`:
it does not depend on any other payload of the batch, in particular not
on errors the other payloads record. -/
theorem execute_slot_independence (maxB delayMs : Nat) (accs : List Int)
    (ps : List Payload) (res : ExecResult) (j : Nat) (a : Int) (p : Payload)
    (hlen : ps.length ≤ accs.length)
    (hrun : execute maxB delayMs accs ps = some res)
    (ha : accs[j]? = some a) (hp : ps[j]? = some p) :
    res.ret = errSuccess ∧
    ∃ a' r, processPayload maxB a p = some (a', r) ∧
      res.accs[j]? = some a' ∧ res.results[j]? = some r := by
  unfold execute at hrun
  rw [if_neg (by omega)] at hrun
  cases hrp : runPayloads maxB accs ps with
  | none =>
      rw [hrp] at hrun
      simp at hrun
  | some w =>
      obtain ⟨accs', rs⟩ := w
      rw [hrp] at hrun
      simp only [Option.some.injEq] at hrun
      subst hrun
      obtain ⟨a', r, h1, h2, h3⟩ := (runPayloads_get maxB ps accs accs' rs hrp).1 j a p ha hp
      exact ⟨rfl, a', r, h1, h2, h3⟩

/-- Witness instantiating C4: in a batch where payload 0 fails with a
declared batch size of 2, slot 1 is still processed exactly as alone:
its accumulator is seeded to 9 and 9 is emitted. -/
theorem execute_slot_independence_witness :
    resW.ret = errSuccess ∧
    ∃ a' r, processPayload 4 5 pGoodW = some (a', r) ∧
      resW.accs[1]? = some a' ∧ resW.results[1]? = some r :=
  execute_slot_independence 4 0 [0, 5] [pBadW, pGoodW] resW 1 5 pGoodW
    (by decide) (by decide) (by decide) rfl

/-- C5: a payload that records a per-slot error before the
state-transition step — declared batch size different from 1, or an
assembly failure for START, READY or INPUT — leaves its slot's
accumulator exactly as it was: the payload completes with a nonzero
error code and no accumulator mutation. -/
theorem processPayload_pre_transition_error (maxB : Nat) (acc : Int) (p : Payload)
    (h : p.batch_size ≠ 1 ∨
      (∃ e b, getInputTensor 4 (p.pulls "START") 0 [] = some (e, b) ∧
        e ≠ errSuccess) ∨
      (∃ bs e b, getInputTensor 4 (p.pulls "START") 0 [] = some (errSuccess, bs) ∧
        getInputTensor 4 (p.pulls "READY") 0 [] = some (e, b) ∧ e ≠ errSuccess) ∨
      (∃ bs br e b,
        getInputTensor 4 (p.pulls "START") 0 [] = some (errSuccess, bs) ∧
        getInputTensor 4 (p.pulls "READY") 0 [] = some (errSuccess, br) ∧
        getInputTensor ((findElemCnt p.inputs).toNat * 4) (p.pulls "INPUT") 0 []
          = some (e, b) ∧ e ≠ errSuccess)) :
    ∃ r, processPayload maxB acc p = some (acc, r) ∧ r.error_code ≠ errSuccess := by
  by_cases hb : p.batch_size ≠ 1
  · exact ⟨⟨kTimesteps, none, none⟩, by simp [processPayload, hb], by decide⟩
  · push_neg at hb
    rcases h with hb' | ⟨e, b, hS, he⟩ | ⟨bs, e, b, hS, hR, he⟩ |
      ⟨bs, br, e, b, hS, hR, hI, he⟩
    · exact absurd hb hb'
    · exact ⟨⟨e, none, none⟩, by simp [processPayload, hb, hS, he], he⟩
    · exact ⟨⟨e, none, none⟩, by simp [processPayload, hb, hS, hR, he], he⟩
    · exact ⟨⟨e, none, none⟩, by simp [processPayload, hb, hS, hR, hI, he], he⟩

/-- Witness instantiating C5 on the spec's short-delivery scenario:
INPUT declares 5 elements but only 4 are delivered, the payload fails
with `kInputSize` (SizeMismatch) and the accumulator keeps its value 7. -/
theorem processPayload_pre_transition_error_witness :
    ∃ r, processPayload 4 7 pShortW = some (7, r) ∧ r.error_code ≠ errSuccess :=
  processPayload_pre_transition_error 4 7 pShortW
    (Or.inr (Or.inr (Or.inr ⟨[1, 0, 0, 0], [1, 0, 0, 0], kInputSize,
      [1, 0, 0, 0, 1, 0, 0, 0, 1, 0, 0, 0, 1, 0, 0, 0], rfl, rfl, rfl, by decide⟩)))

/-- C8: for a payload whose step emits, that requested at least one
output, and that carries no prior error, the output callback is invoked
with shape `[element_count]` when the configured max batch size is 0
and `[1, element_count]` otherwise; a failing callback sets the error
code `kOutputBuffer` (and the payload still completes, with the updated
accumulator); a null buffer means nothing is written; otherwise the
post-update accumulator value is written. -/
theorem processPayload_output_emission (maxB : Nat) (acc : Int) (p : Payload)
    (sb rb ib : List Nat) (acc' outv : Int)
    (hbs : p.batch_size = 1)
    (hS : getInputTensor 4 (p.pulls "START") 0 [] = some (errSuccess, sb))
    (hR : getInputTensor 4 (p.pulls "READY") 0 [] = some (errSuccess, rb))
    (hI : getInputTensor ((findElemCnt p.inputs).toNat * 4) (p.pulls "INPUT") 0 []
        = some (errSuccess, ib))
    (hstep : seqStep ((bytesToI32 sb).headD 0) ((bytesToI32 rb).headD 0)
        (bytesToI32 ib) acc = some (acc', some outv))
    (hout : 0 < p.output_cnt) (herr : p.error_code = 0) :
    outv = acc' ∧
    (p.output_fn (p.required_output_names.headD "")
        (if maxB = 0 then [findElemCnt p.inputs] else [1, findElemCnt p.inputs])
        = OutResp.fail →
      processPayload maxB acc p = some (acc',
        ⟨kOutputBuffer,
          some (p.required_output_names.headD "",
            if maxB = 0 then [findElemCnt p.inputs] else [1, findElemCnt p.inputs]),
          none⟩)) ∧
    (p.output_fn (p.required_output_names.headD "")
        (if maxB = 0 then [findElemCnt p.inputs] else [1, findElemCnt p.inputs])
        = OutResp.nullbuf →
      processPayload maxB acc p = some (acc',
        ⟨0,
          some (p.required_output_names.headD "",
            if maxB = 0 then [findElemCnt p.inputs] else [1, findElemCnt p.inputs]),
          none⟩)) ∧
    (p.output_fn (p.required_output_names.headD "")
        (if maxB = 0 then [findElemCnt p.inputs] else [1, findElemCnt p.inputs])
        = OutResp.buf →
      processPayload maxB acc p = some (acc',
        ⟨0,
          some (p.required_output_names.headD "",
            if maxB = 0 then [findElemCnt p.inputs] else [1, findElemCnt p.inputs]),
          some acc'⟩)) := by
  have hemit : outv = acc' := seqStep_emit_eq _ _ _ _ _ _ hstep
  have hshape : (if maxB ≠ 0 then [(1 : Int)] else []) ++ [findElemCnt p.inputs]
      = if maxB = 0 then [findElemCnt p.inputs] else [1, findElemCnt p.inputs] := by
    by_cases h0 : maxB = 0
    · simp [h0]
    · simp [h0]
  have hgd : p.required_output_names.head?.getD ""
      = p.required_output_names.headD "" := by
    cases p.required_output_names <;> rfl
  refine ⟨hemit, ?_, ?_, ?_⟩
  all_goals
    intro hcall
    simp only [processPayload, hbs, hS, hR, hI, hstep, herr, hout,
      ne_eq, not_true_eq_false, if_false]
    simp only [hshape, hgd]
    rw [hcall]
    simp [hemit]

/-- Witness instantiating C8: the well-formed payload `pGoodW` (max
batch size 4, element count 3, callback returning a real buffer) gets
the shape [1, 3] and the seeded accumulator 9 written. -/
theorem processPayload_output_emission_witness :
    ((9 : Int) = 9) ∧
    (pGoodW.output_fn (pGoodW.required_output_names.headD "")
        (if 4 = 0 then [findElemCnt pGoodW.inputs] else [1, findElemCnt pGoodW.inputs])
        = OutResp.fail →
      processPayload 4 0 pGoodW = some (9,
        ⟨kOutputBuffer,
          some (pGoodW.required_output_names.headD "",
            if 4 = 0 then [findElemCnt pGoodW.inputs] else [1, findElemCnt pGoodW.inputs]),
          none⟩)) ∧
    (pGoodW.output_fn (pGoodW.required_output_names.headD "")
        (if 4 = 0 then [findElemCnt pGoodW.inputs] else [1, findElemCnt pGoodW.inputs])
        = OutResp.nullbuf →
      processPayload 4 0 pGoodW = some (9,
        ⟨0,
          some (pGoodW.required_output_names.headD "",
            if 4 = 0 then [findElemCnt pGoodW.inputs] else [1, findElemCnt pGoodW.inputs]),
          none⟩)) ∧
    (pGoodW.output_fn (pGoodW.required_output_names.headD "")
        (if 4 = 0 then [findElemCnt pGoodW.inputs] else [1, findElemCnt pGoodW.inputs])
        = OutResp.buf →
      processPayload 4 0 pGoodW = some (9,
        ⟨0,
          some (pGoodW.required_output_names.headD "",
            if 4 = 0 then [findElemCnt pGoodW.inputs] else [1, findElemCnt pGoodW.inputs]),
          some 9⟩)) :=
  processPayload_output_emission 4 0 pGoodW [1, 0, 0, 0] [1, 0, 0, 0]
    [2, 0, 0, 0, 3, 0, 0, 0, 4, 0, 0, 0] 9 9 rfl rfl rfl rfl (by decide) (by decide) rfl

/-- C10: when the INPUT element count is 0 — in particular when the
payload lists no input named "INPUT", so the count keeps its default 0 —
a step with ready ≠ 0 and start ≠ 0 reads element 0 of the empty
decoded INPUT buffer: the access is out of bounds and reachable through
a full payload, so the set branch is not the empty sum 0 on an empty
input but undefined. -/
theorem emptyInput_oob_reachable :
    (∀ inputs : List (String × List Int), (∀ q ∈ inputs, q.1 ≠ "INPUT") →
      findElemCnt inputs = 0) ∧
    (∀ s r acc : Int, s ≠ 0 → r ≠ 0 → seqStep s r [] acc = none) ∧
    processPayload 4 0 pNoInputW = none := by
  refine ⟨?_, ?_, ?_⟩
  · intro inputs
    induction inputs with
    | nil =>
        intro _
        rfl
    | cons q rest ih =>
        intro h
        obtain ⟨n, dims⟩ := q
        have hq : n ≠ "INPUT" := h (n, dims) (List.mem_cons_self _ _)
        simp only [findElemCnt, hq, if_false]
        exact ih fun x hx => h x (List.mem_cons_of_mem _ hx)
  · intro s r acc hs hr
    simp [seqStep, hr, hs]
  · rfl

/-- Witness instantiating C10: a payload input list naming only "FOO"
yields element count 0, and a start step on the empty vector is
undefined. -/
theorem emptyInput_oob_reachable_witness :
    findElemCnt [("FOO", [2])] = 0 ∧ seqStep 2 3 [] 7 = none :=
  ⟨emptyInput_oob_reachable.1 [("FOO", [2])] (by decide),
   emptyInput_oob_reachable.2.1 2 3 7 (by decide) (by decide)⟩

